import Mathlib

/-!
Verification of `src/plot/riemann_surface_sqrt.py`, a script that samples a
polar grid, maps it through the two branches of the complex square root, and
renders two colored sheets.  The numeric pipeline (lines 9-21 of the source)
is embedded over the real numbers; the scene-building calls (lines 24-36) are
embedded as explicit state passing on an axes record.
-/

namespace RiemannSqrt

/-- `np.linspace a b n`: `n` evenly spaced samples from `a` to `b` inclusive
(`i`-th sample is `a + i*(b-a)/(n-1)`). -/
noncomputable def linspace (a b : ℝ) (n : ℕ) (i : Fin n) : ℝ :=
  a + (i : ℝ) * (b - a) / ((n : ℝ) - 1)

/-- Source line 9: `n = 100`. -/
def n : ℕ := 100

/-- Source line 10: `theta = np.linspace(0, 2 * np.pi, n)`. -/
noncomputable def theta : Fin n → ℝ := linspace 0 (2 * Real.pi) n

/-- Source line 11: `r = np.linspace(0.01, 1, n)`. -/
noncomputable def r : Fin n → ℝ := linspace 0.01 1 n

/-- Source line 12: `R, Theta = np.meshgrid(r, theta)` — first output: the
radius repeated along rows, `R[i,j] = r[j]`. -/
noncomputable def R (i j : Fin n) : ℝ := r j

/-- Source line 12: `np.meshgrid` second output: the angle repeated along
columns, `Theta[i,j] = theta[i]`. -/
noncomputable def Theta (i j : Fin n) : ℝ := theta i

/-- Source line 15: `zscale = 1`. -/
def zscale : ℝ := 1

/-- Source line 16: `X = R * np.cos(Theta)`. -/
noncomputable def X (i j : Fin n) : ℝ := R i j * Real.cos (Theta i j)

/-- Source line 17: `Y = R * np.sin(Theta)`. -/
noncomputable def Y (i j : Fin n) : ℝ := R i j * Real.sin (Theta i j)

/-- Source line 18: `Z1 = np.sqrt(R) * np.sin(Theta / 2) * zscale`. -/
noncomputable def Z1 (i j : Fin n) : ℝ :=
  Real.sqrt (R i j) * Real.sin (Theta i j / 2) * zscale

/-- Source line 19: `Z2 = -np.sqrt(R) * np.sin(Theta / 2) * zscale`. -/
noncomputable def Z2 (i j : Fin n) : ℝ :=
  -Real.sqrt (R i j) * Real.sin (Theta i j / 2) * zscale

/-- Source line 20: the scalar passed to the cyclic colormap for sheet 1,
`Theta / (np.pi*4)` (the array `C1 = cm.hsv(...)` holds its RGBA image). -/
noncomputable def C1arg (i j : Fin n) : ℝ := Theta i j / (Real.pi * 4)

/-- Source line 21: the scalar passed to the cyclic colormap for sheet 2,
`0.5 + Theta / (np.pi*4)`. -/
noncomputable def C2arg (i j : Fin n) : ℝ := 0.5 + Theta i j / (Real.pi * 4)

instance : NeZero n := ⟨by norm_num [n]⟩

/-- `np.ptp` over an `n×n` array: maximum entry minus minimum entry. -/
noncomputable def ptp (f : Fin n → Fin n → ℝ) : ℝ :=
  (Finset.univ.sup' Finset.univ_nonempty fun p : Fin n × Fin n => f p.1 p.2) -
  (Finset.univ.inf' Finset.univ_nonempty fun p : Fin n × Fin n => f p.1 p.2)

/- ### Helper lemmas about the sampled axes -/

/-- Closed form for the angle samples: `theta i = 2*π*i/99`. -/
theorem theta_eq (i : Fin n) : theta i = 2 * Real.pi * (i : ℝ) / 99 := by
  unfold theta linspace n
  push_cast
  ring

/-- Closed form for the radius samples: `r j = (j+1)/100`. -/
theorem r_eq (j : Fin n) : r j = ((j : ℝ) + 1) / 100 := by
  unfold r linspace n
  norm_num
  ring

/-- Every sampled radius is at least `1/100`. -/
theorem r_ge (j : Fin n) : (1 : ℝ) / 100 ≤ r j := by
  rw [r_eq]
  have : (0 : ℝ) ≤ (j : ℝ) := Nat.cast_nonneg _
  linarith

/-- Every sampled radius is positive. -/
theorem r_pos (j : Fin n) : 0 < r j := lt_of_lt_of_le (by norm_num) (r_ge j)

/-- The radius samples are strictly increasing. -/
theorem r_strictMono : StrictMono r := by
  intro a b hab
  rw [r_eq, r_eq]
  have h : (a : ℝ) < (b : ℝ) := by exact_mod_cast hab
  linarith

/-- The angle samples are strictly increasing. -/
theorem theta_strictMono : StrictMono theta := by
  intro a b hab
  rw [theta_eq, theta_eq]
  have h : (a : ℝ) < (b : ℝ) := by exact_mod_cast hab
  have hpi : (0 : ℝ) < Real.pi := Real.pi_pos
  have := mul_lt_mul_of_pos_left h (by linarith : (0 : ℝ) < 2 * Real.pi)
  linarith [div_lt_div_of_pos_right this (by norm_num : (0:ℝ) < 99)]

/- ### C1: the two sheets are exact negations -/

/-- C1: at every grid point the second-sheet height is the exact negation of
the first-sheet height, `Z2[i,j] = -Z1[i,j]`. -/
theorem sheet2_neg_sheet1 (i j : Fin n) : Z2 i j = -Z1 i j := by
  unfold Z1 Z2
  ring

/- ### C2: polar-to-Cartesian correctness -/

/-- C2: at every grid point, `X² + Y² = R²` — the polar-to-Cartesian map is
correct (exactly, over the reals). -/
theorem x_sq_add_y_sq (i j : Fin n) : X i j ^ 2 + Y i j ^ 2 = R i j ^ 2 := by
  unfold X Y
  have h := Real.sin_sq_add_cos_sq (Theta i j)
  nlinarith [h]

/-- The index of the last sample, `n - 1 = 99`. -/
def lastIdx : Fin n := ⟨99, by norm_num [n]⟩

/-- The first angle sample is `0`. -/
theorem theta_zero : theta 0 = 0 := by
  rw [theta_eq]
  norm_num

/-- The last angle sample is `2π`. -/
theorem theta_last : theta lastIdx = 2 * Real.pi := by
  rw [theta_eq]
  norm_num [lastIdx]

/- ### C4: the shape of the two 1D sample arrays -/

/-- C4: both 1D arrays have exactly `n = 100` strictly increasing,
equally spaced entries; the radius array runs from `0.01` to `1` and the
angle array from `0` to `2π`. -/
theorem linspace_arrays_spec :
    n = 100 ∧
    StrictMono r ∧ r 0 = 0.01 ∧ r lastIdx = 1 ∧
    (∀ i : Fin 99, r i.succ - r i.castSucc = (1 - 0.01) / 99) ∧
    StrictMono theta ∧ theta 0 = 0 ∧ theta lastIdx = 2 * Real.pi ∧
    (∀ i : Fin 99, theta i.succ - theta i.castSucc = (2 * Real.pi - 0) / 99) := by
  refine ⟨rfl, r_strictMono, ?_, ?_, ?_, theta_strictMono, theta_zero, theta_last, ?_⟩
  · rw [r_eq]; norm_num
  · rw [r_eq]; norm_num [lastIdx]
  · intro i
    rw [r_eq, r_eq]
    simp only [Fin.val_succ, Fin.coe_castSucc]
    push_cast
    ring
  · intro i
    rw [theta_eq, theta_eq]
    simp only [Fin.val_succ, Fin.coe_castSucc]
    push_cast
    ring

/- ### C5: meshgrid semantics -/

/-- C5: the mesh satisfies `R[i,j] = r[j]` and `Theta[i,j] = theta[i]`, and
each ordered pair `(r[j], theta[i])` occurs at exactly one of the
`n × n = 10000` mesh positions. -/
theorem meshgrid_spec :
    (∀ i j : Fin n, R i j = r j ∧ Theta i j = theta i) ∧
    (Finset.univ.image fun p : Fin n × Fin n => (R p.1 p.2, Theta p.1 p.2)).card
      = n * n ∧
    n * n = 10000 := by
  refine ⟨fun i j => ⟨rfl, rfl⟩, ?_, by norm_num [n]⟩
  have hinj : Function.Injective
      fun p : Fin n × Fin n => (R p.1 p.2, Theta p.1 p.2) := by
    intro p q hpq
    have h1 : R p.1 p.2 = R q.1 q.2 := congrArg Prod.fst hpq
    have h2 : Theta p.1 p.2 = Theta q.1 q.2 := congrArg Prod.snd hpq
    have hj : p.2 = q.2 := r_strictMono.injective h1
    have hi : p.1 = q.1 := theta_strictMono.injective h2
    exact Prod.ext hi hj
  rw [Finset.card_image_of_injective _ hinj, Finset.card_univ,
    Fintype.card_prod, Fintype.card_fin]

/- ### C6: the first sheet is bounded at the smallest radius -/

/-- C6: at every grid point whose radius is the smallest sampled radius
`0.01`, the first-sheet height satisfies `|Z1| ≤ √0.01 · zscale`. -/
theorem z1_bounded_at_rmin (i j : Fin n) (h : R i j = 0.01) :
    |Z1 i j| ≤ Real.sqrt 0.01 * zscale := by
  unfold Z1 zscale
  rw [h, mul_one, abs_mul]
  have hs : |Real.sin (Theta i j / 2)| ≤ 1 :=
    abs_le.mpr ⟨Real.neg_one_le_sin _, Real.sin_le_one _⟩
  have hr : |Real.sqrt 0.01| = Real.sqrt 0.01 := abs_of_nonneg (Real.sqrt_nonneg _)
  rw [hr]
  calc Real.sqrt 0.01 * |Real.sin (Theta i j / 2)|
      ≤ Real.sqrt 0.01 * 1 :=
        mul_le_mul_of_nonneg_left hs (Real.sqrt_nonneg _)
    _ = Real.sqrt 0.01 * 1 := rfl

/-- Witness for C6 at the concrete grid point `(0, 0)`. -/
theorem z1_bounded_at_rmin_witness :
    R 0 0 = 0.01 ∧ |Z1 0 0| ≤ Real.sqrt 0.01 * zscale := by
  have h : R 0 0 = 0.01 := by
    show r 0 = 0.01
    rw [r_eq]
    norm_num
  exact ⟨h, z1_bounded_at_rmin 0 0 h⟩

/- ### C7: the radius mesh is bounded away from zero -/

/-- C7: every mesh radius is at least `0.01`, in particular positive, so the
square root in `Z1`/`Z2` is always taken of a positive argument (and is itself
positive, never a domain error). -/
theorem mesh_radius_pos (i j : Fin n) :
    0.01 ≤ R i j ∧ 0 < R i j ∧ 0 < Real.sqrt (R i j) := by
  refine ⟨?_, r_pos j, Real.sqrt_pos.mpr (r_pos j)⟩
  have := r_ge j
  show 0.01 ≤ r j
  linarith

/- ### C3: half-cycle hue offset between the two sheets -/

/-- C3: at every grid point the sheet-1 colormap input is `Θ/(4π)`, the
sheet-2 input is `0.5 + Θ/(4π)`, hence exactly the sheet-1 input plus one
half, and in particular equal to it plus one half modulo 1. -/
theorem hue_offset_half (i j : Fin n) :
    C1arg i j = Theta i j / (Real.pi * 4) ∧
    C2arg i j = 0.5 + Theta i j / (Real.pi * 4) ∧
    C2arg i j = C1arg i j + 1 / 2 ∧
    Int.fract (C2arg i j) = Int.fract (C1arg i j + 1 / 2) := by
  have h : C2arg i j = C1arg i j + 1 / 2 := by
    unfold C1arg C2arg
    norm_num
    ring
  exact ⟨rfl, rfl, h, by rw [h]⟩

/- ### The scene: axes state built by lines 24-36 of the source -/

/-- The data of one `ax.plot_surface` call: the three coordinate grids, the
row/column strides, and the grid of scalars fed to the colormap for the
`facecolors` array. -/
structure SurfaceSpec where
  xdata : Fin n → Fin n → ℝ
  ydata : Fin n → Fin n → ℝ
  zdata : Fin n → Fin n → ℝ
  rstride : ℕ
  cstride : ℕ
  colorArg : Fin n → Fin n → ℝ

/-- The data of one `ax.plot_wireframe` call. -/
structure WireframeSpec where
  xdata : Fin n → Fin n → ℝ
  ydata : Fin n → Fin n → ℝ
  zdata : Fin n → Fin n → ℝ
  rstride : ℕ
  cstride : ℕ
  color : String
  linewidths : ℕ

/-- The state of the 3D axes object touched by the script: the box aspect
(`none` until set), the surface and wireframe layers added so far, and the
tick-label lists of the three axes (`none` = automatic labels). -/
structure Axes3D where
  boxAspect : Option (ℝ × ℝ × ℝ)
  surfaces : List SurfaceSpec
  wireframes : List WireframeSpec
  xticklabels : Option (List String)
  yticklabels : Option (List String)
  zticklabels : Option (List String)

/-- Fresh axes from `fig.add_subplot(111, projection='3d')`. -/
def axInit : Axes3D :=
  { boxAspect := none, surfaces := [], wireframes := [],
    xticklabels := none, yticklabels := none, zticklabels := none }

/-- `ax.set_box_aspect(t)`. -/
def set_box_aspect (ax : Axes3D) (t : ℝ × ℝ × ℝ) : Axes3D :=
  { ax with boxAspect := some t }

/-- `ax.plot_surface(...)`: appends one filled surface layer. -/
def plot_surface (ax : Axes3D) (s : SurfaceSpec) : Axes3D :=
  { ax with surfaces := ax.surfaces ++ [s] }

/-- `ax.plot_wireframe(...)`: appends one wireframe layer. -/
def plot_wireframe (ax : Axes3D) (w : WireframeSpec) : Axes3D :=
  { ax with wireframes := ax.wireframes ++ [w] }

/-- Python iterates a string argument of `set_*ticklabels` character by
character, one label per character. -/
def labelsOfString (s : String) : List String :=
  s.data.map fun c => String.mk [c]

/-- `ax.set_xticklabels(s)`. -/
def set_xticklabels (ax : Axes3D) (s : String) : Axes3D :=
  { ax with xticklabels := some (labelsOfString s) }

/-- `ax.set_yticklabels(s)`. -/
def set_yticklabels (ax : Axes3D) (s : String) : Axes3D :=
  { ax with yticklabels := some (labelsOfString s) }

/-- `ax.set_zticklabels(s)`. -/
def set_zticklabels (ax : Axes3D) (s : String) : Axes3D :=
  { ax with zticklabels := some (labelsOfString s) }

/-- The empty string passed to the three `set_*ticklabels` calls. -/
def noLabels : String := ""

/-- The wireframe color argument of lines 31-32. -/
def blackColor : String := "black"

/-- Source lines 26-36 applied in order to the fresh axes: set the box
aspect from the spans of `X` and `Z1`, add the two colored sheets, add the
two black wireframes, then blank the tick labels of all three axes. -/
noncomputable def finalAxes : Axes3D :=
  let ax0 := axInit
  let ax1 := set_box_aspect ax0 (ptp X, ptp X, ptp Z1)
  let ax2 := plot_surface ax1
    { xdata := X, ydata := Y, zdata := Z1, rstride := 5, cstride := 15,
      colorArg := C1arg }
  let ax3 := plot_surface ax2
    { xdata := X, ydata := Y, zdata := Z2, rstride := 5, cstride := 15,
      colorArg := C2arg }
  let ax4 := plot_wireframe ax3
    { xdata := X, ydata := Y, zdata := Z1, rstride := 5, cstride := 15,
      color := blackColor, linewidths := 1 }
  let ax5 := plot_wireframe ax4
    { xdata := X, ydata := Y, zdata := Z2, rstride := 5, cstride := 15,
      color := blackColor, linewidths := 1 }
  let ax6 := set_xticklabels ax5 noLabels
  let ax7 := set_yticklabels ax6 noLabels
  set_zticklabels ax7 noLabels

/- ### C8: the assembled scene -/

/-- C8: the finished scene holds exactly 2 filled surfaces and exactly 2
wireframes, with the tick labels of all three axes set to the empty list; the
pipeline is a total function, so no error is raised. -/
theorem scene_layers :
    finalAxes.surfaces.length = 2 ∧ finalAxes.wireframes.length = 2 ∧
    finalAxes.xticklabels = some [] ∧ finalAxes.yticklabels = some [] ∧
    finalAxes.zticklabels = some [] :=
  ⟨rfl, rfl, rfl, rfl, rfl⟩

/- ### C9: the box aspect triple -/

/-- C9: the box aspect set on the axes is `(ptp X, ptp X, ptp Z1)` — the
y-component reuses the span of `X`, and the span of `Y` does not appear. -/
theorem scene_box_aspect :
    finalAxes.boxAspect = some (ptp X, ptp X, ptp Z1) := rfl

/- ### C10: the two sheets meet exactly along the angular seam -/

/-- The value `(0 : Fin n)` casts to the real number `0`. -/
theorem coe_fin_zero : (((0 : Fin n) : ℕ) : ℝ) = 0 := by
  norm_num [n, Fin.val_zero]

/-- The half-angle sine vanishes exactly at the first and last angle
samples: for `i : Fin 100`, `sin(θᵢ/2) = 0 ↔ i = 0 ∨ i = 99`. -/
theorem sin_half_theta_eq_zero_iff (i : Fin n) :
    Real.sin (theta i / 2) = 0 ↔ i = 0 ∨ i = lastIdx := by
  have hhalf : theta i / 2 = Real.pi * (i : ℝ) / 99 := by
    rw [theta_eq]; ring
  rw [hhalf]
  constructor
  · intro h
    by_contra hc
    push_neg at hc
    obtain ⟨h0, h99⟩ := hc
    have hv0 : (i : ℕ) ≠ 0 := by
      intro hv
      exact h0 (Fin.ext (by rw [hv]; exact_mod_cast coe_fin_zero.symm))
    have hv99 : (i : ℕ) ≠ 99 := by
      intro hv
      exact h99 (Fin.ext (by rw [hv]; rfl))
    have hlt : (i : ℕ) < 100 := i.isLt
    have hb1 : (1 : ℝ) ≤ (i : ℝ) := by
      exact_mod_cast Nat.one_le_iff_ne_zero.mpr hv0
    have hb2 : ((i : ℕ) : ℝ) < 99 := by
      exact_mod_cast lt_of_le_of_ne (Nat.lt_succ_iff.mp hlt) hv99
    have hpos : 0 < Real.pi * (i : ℝ) / 99 := by
      apply div_pos (mul_pos Real.pi_pos (by linarith)) (by norm_num)
    have hlt2 : Real.pi * (i : ℝ) / 99 < Real.pi := by
      rw [div_lt_iff₀ (by norm_num : (0:ℝ) < 99)]
      have := mul_lt_mul_of_pos_left hb2 Real.pi_pos
      linarith
    exact absurd h (ne_of_gt (Real.sin_pos_of_pos_of_lt_pi hpos hlt2))
  · rintro (rfl | rfl)
    · rw [show (((0 : Fin n) : ℕ) : ℝ) = 0 from coe_fin_zero]
      norm_num
    · have : Real.pi * ((lastIdx : ℕ) : ℝ) / 99 = Real.pi := by
        norm_num [lastIdx]
      rw [this, Real.sin_pi]

/-- C10: the two sheets coincide at a grid point iff the half-angle sine
vanishes there, which happens exactly at the first and last angle samples
(θ = 0 and θ = 2π), where both heights are 0; the θ = 0 row and the θ = 2π
row carry identical `(x, y, z₁, z₂)` data for every radius; and no grid
point has radius 0. -/
theorem seam_structure :
    (∀ i j : Fin n, Z1 i j = Z2 i j ↔ Real.sin (theta i / 2) = 0) ∧
    (∀ i : Fin n, Real.sin (theta i / 2) = 0 ↔ i = 0 ∨ i = lastIdx) ∧
    (∀ j : Fin n,
      Z1 0 j = 0 ∧ Z1 lastIdx j = 0 ∧ Z2 0 j = 0 ∧ Z2 lastIdx j = 0) ∧
    (∀ j : Fin n, X 0 j = X lastIdx j ∧ Y 0 j = Y lastIdx j ∧
      Z1 0 j = Z1 lastIdx j ∧ Z2 0 j = Z2 lastIdx j) ∧
    (∀ i j : Fin n, R i j ≠ 0) := by
  have hz1zero : ∀ j : Fin n, Z1 0 j = 0 := by
    intro j
    unfold Z1 Theta zscale
    rw [theta_zero]
    norm_num
  have hz1last : ∀ j : Fin n, Z1 lastIdx j = 0 := by
    intro j
    unfold Z1 Theta zscale
    rw [theta_last, show (2 : ℝ) * Real.pi / 2 = Real.pi by ring, Real.sin_pi]
    ring
  have hz2zero : ∀ j : Fin n, Z2 0 j = 0 := by
    intro j
    unfold Z2 Theta zscale
    rw [theta_zero]
    norm_num
  have hz2last : ∀ j : Fin n, Z2 lastIdx j = 0 := by
    intro j
    unfold Z2 Theta zscale
    rw [theta_last, show (2 : ℝ) * Real.pi / 2 = Real.pi by ring, Real.sin_pi]
    ring
  refine ⟨?_, sin_half_theta_eq_zero_iff, ?_, ?_, ?_⟩
  · intro i j
    unfold Z1 Z2 Theta zscale
    have hsqrt : 0 < Real.sqrt (R i j) := Real.sqrt_pos.mpr (r_pos j)
    constructor
    · intro h
      have h2 : Real.sqrt (R i j) * Real.sin (theta i / 2) = 0 := by linarith
      rcases mul_eq_zero.mp h2 with hs | hs
      · exact absurd hs (ne_of_gt hsqrt)
      · exact hs
    · intro h
      rw [h]
      ring
  · exact fun j => ⟨hz1zero j, hz1last j, hz2zero j, hz2last j⟩
  · intro j
    refine ⟨?_, ?_, (hz1zero j).trans (hz1last j).symm,
      (hz2zero j).trans (hz2last j).symm⟩
    · unfold X Theta
      rw [theta_zero, theta_last, Real.cos_zero, Real.cos_two_pi]
      rfl
    · unfold Y Theta
      rw [theta_zero, theta_last, Real.sin_zero, Real.sin_two_pi]
      rfl
  · exact fun i j => ne_of_gt (r_pos j)

end RiemannSqrt
